import Mathlib

/-!
Verification development for the mapping_infra repository.

The definitions below are shallow embeddings of the repository's
TypeScript ingestion, aggregation, streaming-parse, cache and geometry
code.  JavaScript numbers are modelled as exact rationals `ℚ` (for the
ingestion/aggregation pipeline, whose arithmetic on the relevant paths
is decimal) and as real numbers `ℝ` (for the trigonometric geometry).
JavaScript's `NaN` is modelled by `Option`: a parse that would produce
`NaN` produces `none`.
-/

namespace MappingInfra

set_option maxRecDepth 200000

/-! ## JavaScript string and number primitives

Models of the JavaScript built-ins the ingestion code uses:
`String.prototype.trim`, the `/^"|"$/g` quote-stripping regex,
`parseFloat`, `Number.prototype.toFixed` and `Number.prototype.toString`.
-/

/-- Model of the `replace(/^"|"$/g, '')` idiom: strip one leading and one
trailing double quote. -/
def stripQuotes (s : String) : String :=
  let s1 := if s.startsWith "\"" then s.drop 1 else s
  if s1.endsWith "\"" then s1.dropRight 1 else s1

/-- Digits of a character list interpreted as a natural number. -/
def digitsToNat (cs : List Char) : Nat :=
  cs.foldl (fun acc c => acc * 10 + (c.toNat - '0'.toNat)) 0

/-- Model of JavaScript `parseFloat` restricted to plain decimal literals:
skips leading whitespace, reads an optional sign and a decimal literal
prefix, and ignores any trailing garbage.  Returns `none` where
`parseFloat` returns `NaN` (no digit prefix at all).  Exponent notation
and `Infinity` are not modelled; no input in this development uses them. -/
def jsParseFloat (s : String) : Option ℚ :=
  let cs := s.toList.dropWhile (fun c => c.isWhitespace)
  let (neg, cs) := match cs with
    | '-' :: rest => (true, rest)
    | '+' :: rest => (false, rest)
    | _ => (false, cs)
  let intPart := cs.takeWhile (fun c => c.isDigit)
  let rest := cs.dropWhile (fun c => c.isDigit)
  let fracPart := match rest with
    | '.' :: rest2 => rest2.takeWhile (fun c => c.isDigit)
    | _ => []
  if intPart.isEmpty && fracPart.isEmpty then none
  else
    let mag : ℚ := (digitsToNat intPart : ℚ) +
      (digitsToNat fracPart : ℚ) / ((10 : ℚ) ^ fracPart.length)
    some (if neg then -mag else mag)

/-- Round half away from zero, the rounding used by `toFixed` on exact
decimal values. -/
def roundAway (q : ℚ) : ℤ :=
  if 0 ≤ q then ⌊q + 1/2⌋ else -⌊-q + 1/2⌋

/-- Left-pad a string with zeros to the given length. -/
def padZeros (s : String) (len : Nat) : String :=
  String.mk (List.replicate (len - s.length) '0') ++ s

/-- Model of JavaScript `Number.prototype.toFixed(d)` (for `0 < d`) on an
exact decimal value: fixed-point notation with `d` fractional digits,
rounding half away from zero, keeping the sign of a negative input. -/
def jsToFixed (d : Nat) (q : ℚ) : String :=
  let n := roundAway (q * (10 : ℚ) ^ d)
  let m := n.natAbs
  let ip := m / 10 ^ d
  let fp := m % 10 ^ d
  let sign := if q < 0 then "-" else ""
  sign ++ toString ip ++ "." ++ padZeros (toString fp) d

/-- Smallest exponent `k ≤ fuel` such that `q * 10^k` is an integer, if any. -/
def decExponent (q : ℚ) : Nat → Option Nat
  | 0 => if q.isInt then some 0 else none
  | n + 1 =>
    match decExponent q n with
    | some k => some k
    | none => if (q * (10 : ℚ) ^ (n + 1)).isInt then some (n + 1) else none

/-- Model of JavaScript `Number.prototype.toString()` for values with a
terminating decimal expansion: the shortest decimal representation (no
trailing fractional zeros, no decimal point for integers).  Values whose
denominator is not a power of ten are printed as exact fractions; that
case is unreachable for the decimal-valued data this pipeline handles. -/
def jsNumToString (q : ℚ) : String :=
  match decExponent q 40 with
  | some 0 => toString q.num
  | some k =>
    let n := (q * (10 : ℚ) ^ k).num
    let m := n.natAbs
    let sign := if q < 0 then "-" else ""
    sign ++ toString (m / 10 ^ k) ++ "." ++
      (padZeros (toString (m % 10 ^ k)) k).dropRightWhile (fun c => c = '0')
  | none => toString q.num ++ "/" ++ toString q.den

/-! ## Canonical entity model

`src/models/PowerPlant.ts`.  Optional TypeScript fields become `Option`;
`rawData` (a `Record<string, string>`) becomes an insertion-ordered
association list. -/

/-- The canonical Facility entity (`PowerPlant` in `src/models/PowerPlant.ts`,
extended with the seasonal-capacity fields used by the EIA pipeline).
`coordinates` is `(longitude, latitude)`. -/
structure PowerPlant where
  id : String
  name : String
  output : ℚ
  outputDisplay : String
  source : String
  coordinates : ℚ × ℚ
  country : String
  capacityFactor : Option ℚ := none
  netSummerCapacity : Option ℚ := none
  netWinterCapacity : Option ℚ := none
  rawData : Option (List (String × String)) := none
  deriving DecidableEq, Repr

/-- The two CSV flavours accepted by `parsePowerPlantCSV`. -/
inductive PlantType where
  | large
  | renewable
  deriving DecidableEq, Repr

/-- String tag used inside generated plant ids, matching the TypeScript
template literal. -/
def PlantType.tag : PlantType → String
  | .large => "large"
  | .renewable => "renewable"

/-! ## CSV ingestion (`src/utils/unifiedPowerPlantProcessor.ts`) -/

/-- Energy-source mapping table of `unifiedPowerPlantProcessor.ts`
(`mapEnergySource`), in source order. -/
def csvSourceMap : List (String × String) :=
  [("Coal", "coal"), ("Natural Gas", "gas"), ("Nuclear", "nuclear"),
   ("Hydroelectric", "hydro"), ("Wind", "wind"), ("Solar", "solar"),
   ("Petroleum", "oil"), ("Biomass", "biomass"), ("Geothermal", "geothermal"),
   ("Tidal", "tidal"), ("Pumped-Storage Hydroelectric", "hydro")]

/-- First value bound to `key` in an association list, like a JavaScript
object/`Map` lookup. -/
def lookupAssoc {α : Type} (l : List (String × α)) (key : String) : Option α :=
  match l with
  | [] => none
  | (k, v) :: rest => if k = key then some v else lookupAssoc rest key

/-- Model of `mapEnergySource` of `unifiedPowerPlantProcessor.ts`: table lookup with
an `other` fallback. -/
def mapEnergySource (source : String) : String :=
  (lookupAssoc csvSourceMap source).getD "other"

/-- Scanner core of `parseCsvRow`: one pass over the characters with an
in-quotes flag, the doubled-quote escape, and comma splitting outside
quotes. -/
def parseCsvRowAux : List Char → Bool → String → List String → List String
  | [], _, current, result => result ++ [current]
  | c :: rest, inQuotes, current, result =>
    if c = '"' then
      if inQuotes then
        if rest.head? = some '"' then
          parseCsvRowAux rest.tail inQuotes (current.push '"') result
        else parseCsvRowAux rest false current result
      else parseCsvRowAux rest true current result
    else if c = ',' ∧ ¬inQuotes then
      parseCsvRowAux rest inQuotes "" (result ++ [current])
    else parseCsvRowAux rest inQuotes (current.push c) result
  termination_by cs _ _ _ => cs.length
  decreasing_by
    all_goals simp [List.length_tail]
    all_goals omega

/-- Model of `parseCsvRow` of `unifiedPowerPlantProcessor.ts`: quote-aware splitting
of one CSV line into fields. -/
def parseCsvRow (line : String) : List String :=
  parseCsvRowAux line.toList false "" []

/-- Field list of a data row keyed by the header names, as built by the
`headers.forEach` loop: missing or empty cells become `""`, other cells
are trimmed and quote-stripped. -/
def rowEntry (headers row : List String) : List (String × String) :=
  headers.enum.map (fun h =>
    (h.2, match row.getD h.1 "" with
          | v => if v = "" then "" else stripQuotes v.trim))

/-- Value of a named column of a row, defaulting to `""` like the indexing
of the TypeScript `entry` record. -/
def entryGet (entry : List (String × String)) (key : String) : String :=
  (lookupAssoc entry key).getD ""

/-- Model of `parseFloat(entry['Latitude'] || '0')`. -/
def rowLatitude (entry : List (String × String)) : Option ℚ :=
  jsParseFloat (let s := entryGet entry "Latitude"; if s = "" then "0" else s)

/-- Model of `parseFloat(entry['Longitude'] || '0')`. -/
def rowLongitude (entry : List (String × String)) : Option ℚ :=
  jsParseFloat (let s := entryGet entry "Longitude"; if s = "" then "0" else s)

/-- Model of `parseFloat(capacityStr.replace(/,/g, '')) || 0` for
`entry['Total Capacity (MW)'] || '0'`. -/
def rowCapacity (entry : List (String × String)) : ℚ :=
  let capacityStr := (let s := entryGet entry "Total Capacity (MW)";
    if s = "" then "0" else s)
  (jsParseFloat (capacityStr.replace "," "")).getD 0

/-- The candidate facility the row loop of `parsePowerPlantCSV` builds
for row `i` — before the coordinate/capacity validity filter. -/
def rowPlant (ty : PlantType) (i : Nat) (entry : List (String × String))
    (lon lat : ℚ) : PowerPlant :=
  let sourceField := match ty with
    | .large => entryGet entry "Primary Energy Source"
    | .renewable => entryGet entry "Primary Renewable Energy Source"
  { id := "plant-" ++ ty.tag ++ "-" ++ toString i
    name := (let s := entryGet entry "Facility Name";
      if s = "" then "Unknown Facility" else s)
    output := rowCapacity entry
    outputDisplay := jsToFixed 1 (rowCapacity entry) ++ " MW"
    source := mapEnergySource (if sourceField = "" then "Other" else sourceField)
    coordinates := (lon, lat)
    country := if entryGet entry "Country" = "Canada" then "CA" else "US"
    rawData := some entry }

/-- Body of the data-row loop of `parsePowerPlantCSV` (lines 35-79 of
`unifiedPowerPlantProcessor.ts`): skip blank lines, apply the row-length
guard, build the candidate plant of row `i`, and keep it only when both
coordinates parsed and the capacity is strictly positive.  `none` means
the row contributes no facility. -/
def processRow (headers : List String) (ty : PlantType) (i : Nat)
    (line : String) : Option PowerPlant :=
  let line := line.trim
  if line = "" then none
  else
    let row := parseCsvRow line
    if row.length < headers.length then none
    else
      let entry := rowEntry headers row
      match rowLatitude entry, rowLongitude entry with
      | some lat, some lon =>
        if 0 < rowCapacity entry then some (rowPlant ty i entry lon lat)
        else none
      | _, _ => none

/-- Model of `parsePowerPlantCSV` of `unifiedPowerPlantProcessor.ts`: split into
lines, read the header row (plain comma split, trimmed, quote-stripped),
then process every data row, dropping invalid ones. -/
def parsePowerPlantCSV (csvText : String) (ty : PlantType) : List PowerPlant :=
  let lines := csvText.splitOn "\n"
  let headers := (lines.headD "").splitOn "," |>.map (fun h => stripQuotes h.trim)
  (lines.drop 1).enum.filterMap (fun p => processRow headers ty (p.1 + 1) p.2)

/-! ## Aggregation (`aggregatePowerPlants`)

Embedding of the richer variant of `aggregatePowerPlants` (the one that
also merges seasonal capacities and the capacity factor); the variant in
`unifiedPowerPlantProcessor.ts` is the same code minus those two merge
steps.  The JavaScript `Map` keyed by a template-literal string, with
in-place mutation of the stored object, becomes an insertion-ordered
association list updated functionally. -/

/-- The Aggregation Key exactly as the template literal builds it:
lowercased name, both coordinates via `toFixed(4)`, and the country code,
joined with `-`. -/
def aggKey (p : PowerPlant) : String :=
  p.name.toLower ++ "-" ++ jsToFixed 4 p.coordinates.1 ++ "-" ++
    jsToFixed 4 p.coordinates.2 ++ "-" ++ p.country

/-- Replace the value bound to `key`, keeping its position; no-op if the
key is absent (the aggregation only updates keys it just looked up). -/
def updateAssoc {α : Type} : List (String × α) → String → α → List (String × α)
  | [], _, _ => []
  | (k, v) :: rest, key, nv =>
    if k = key then (k, nv) :: rest else (k, v) :: updateAssoc rest key nv

/-- JavaScript object property write: overwrite in place if present,
append otherwise. -/
def setAssoc (l : List (String × String)) (key val : String) :
    List (String × String) :=
  match lookupAssoc l key with
  | some _ => updateAssoc l key val
  | none => l ++ [(key, val)]

/-- One merge of a plant `p` into the `existingPlant` already stored under
its Aggregation Key (the `if (plantMap.has(key))` branch): capacities add,
the display string is re-derived, seasonal capacities add when the incoming
value is truthy, the capacity factor becomes the capacity-weighted mix of
the two sides (weights: the accumulated output before the merge and the
incoming plant's output) or the one present side, and the stored raw-data
capacity field is overwritten with the new total. -/
def mergePlants (existing p : PowerPlant) : PowerPlant :=
  let oldOutput := existing.output
  let newOutput := existing.output + p.output
  let newSummer := match p.netSummerCapacity with
    | some v =>
      if v ≠ 0 then some (existing.netSummerCapacity.getD 0 + v)
      else existing.netSummerCapacity
    | none => existing.netSummerCapacity
  let newWinter := match p.netWinterCapacity with
    | some v =>
      if v ≠ 0 then some (existing.netWinterCapacity.getD 0 + v)
      else existing.netWinterCapacity
    | none => existing.netWinterCapacity
  let newCf := match existing.capacityFactor, p.capacityFactor with
    | some ce, some cp => some ((oldOutput * ce + p.output * cp) / newOutput)
    | none, some cp => some cp
    | some ce, none => some ce
    | none, none => none
  let newRaw := match existing.rawData, p.rawData with
    | some r, some _ =>
      some (setAssoc r "Total Capacity (MW)" (jsNumToString newOutput))
    | _, _ => existing.rawData
  { existing with
    output := newOutput
    outputDisplay := jsToFixed 1 newOutput ++ " MW"
    netSummerCapacity := newSummer
    netWinterCapacity := newWinter
    capacityFactor := newCf
    rawData := newRaw }

/-- One iteration of the `for (const plant of plants)` loop over the
accumulated key→plant map. -/
def aggStep (acc : List (String × PowerPlant)) (p : PowerPlant) :
    List (String × PowerPlant) :=
  let key := aggKey p
  match lookupAssoc acc key with
  | some existing => updateAssoc acc key (mergePlants existing p)
  | none => acc ++ [(key, p)]

/-- Model of `aggregatePowerPlants`: fold the plants into the keyed map and return
the stored plants in insertion order (`Array.from(plantMap.values())`). -/
def aggregatePowerPlants (plants : List PowerPlant) : List PowerPlant :=
  (plants.foldl aggStep []).map Prod.snd

/-- The group of input plants sharing one Aggregation Key, in input order. -/
def keyGroup (k : String) (l : List PowerPlant) : List PowerPlant :=
  l.filter (fun p => aggKey p = k)

/-- Total capacity of the group with key `k`. -/
def sumOut (k : String) (l : List PowerPlant) : ℚ :=
  ((keyGroup k l).map PowerPlant.output).sum

/-- Capacity-weighted sum of capacity factors of the group with key `k`
(absent factors weigh in as zero; the theorems only use this under the
hypothesis that every group member has a factor). -/
def cfWeightedSum (k : String) (l : List PowerPlant) : ℚ :=
  ((keyGroup k l).map (fun p => p.output * p.capacityFactor.getD 0)).sum

/-! ## EIA record transform (`src/utils/progressIndicator.ts`) -/

/-- Energy-source table of the EIA pipeline's `mapEnergySource`, in source
order (the CSV table plus the additional EIA descriptions). -/
def eiaSourceMap : List (String × String) :=
  csvSourceMap ++
  [("Gas", "gas"), ("Diesel", "diesel"), ("Oil", "oil"), ("Waste", "waste"),
   ("Biofuel", "biofuel"), ("Battery", "battery"), ("Pumped Storage", "hydro"),
   ("Run-of-river", "hydro"), ("Conventional Hydroelectric", "hydro"),
   ("Onshore Wind", "wind"), ("Offshore Wind", "wind"),
   ("Photovoltaic", "solar"), ("Concentrated Solar", "solar"),
   ("Combined Cycle", "gas"), ("Combustion Turbine", "gas"),
   ("Steam Turbine", "coal"), ("Internal Combustion", "diesel"),
   ("Landfill Gas", "biomass"), ("Municipal Solid Waste", "waste"),
   ("Wood", "biomass"), ("Other Biomass", "biomass"), ("Other Gases", "gas")]

/-- The EIA `mapEnergySource`: exact table match, then a
lowercased-and-trimmed match against the table keys, then `other`. -/
def mapEnergySourceEIA (source : String) : String :=
  match lookupAssoc eiaSourceMap source with
  | some v => v
  | none =>
    let normalized := source.toLower.trim
    match eiaSourceMap.find? (fun kv => kv.1.toLower.trim = normalized) with
    | some kv => kv.2
    | none => "other"

/-- A raw EIA feed record as `transformEIAItemToPowerPlant` reads it:
every field a possibly-absent string (`none` models a missing property,
whose `parseFloat` is `NaN`). -/
structure EIAItem where
  plantid : Option String := none
  generatorid : Option String := none
  plantName : Option String := none
  latitude : Option String := none
  longitude : Option String := none
  nameplateCapacityMw : Option String := none
  netSummerCapacityMw : Option String := none
  netWinterCapacityMw : Option String := none
  energySourceDesc : Option String := none
  raw : List (String × String) := []
  deriving DecidableEq, Repr

/-- Model of `parseFloat` of a possibly-absent field (`parseFloat(undefined)` is
`NaN`, i.e. `none`). -/
def parseFloatField (o : Option String) : Option ℚ :=
  o.bind jsParseFloat

/-- String interpolation of a possibly-absent field (an `undefined`
interpolates as the text `undefined`). -/
def interpField (o : Option String) : String :=
  o.getD "undefined"

/-- A possibly-absent field under JavaScript truthiness with a string
default (`item.plantName || 'Unknown Plant'`). -/
def fieldOr (o : Option String) (dflt : String) : String :=
  match o with
  | some s => if s = "" then dflt else s
  | none => dflt

/-- Model of `parseFloat(item['nameplate-capacity-mw']) || 0`. -/
def eiaNameplate (item : EIAItem) : ℚ :=
  (parseFloatField item.nameplateCapacityMw).getD 0

/-- The facility `transformEIAItemToPowerPlant` builds once the record has
passed the coordinate/capacity guard.  The proxy capacity factor is the
net-summer over nameplate ratio as a percentage (a record whose net-summer
field fails to parse gets no usable factor); the seasonal fields are
attached only when they parsed. -/
def eiaPlant (item : EIAItem) (lon lat : ℚ) : PowerPlant :=
  let netSummerCapacity := parseFloatField item.netSummerCapacityMw
  { id := "us-" ++ interpField item.plantid ++ "-" ++
      interpField item.generatorid
    name := fieldOr item.plantName "Unknown Plant"
    output := eiaNameplate item
    outputDisplay := jsToFixed 1 (eiaNameplate item) ++ " MW"
    source := mapEnergySourceEIA (fieldOr item.energySourceDesc "Other")
    coordinates := (lon, lat)
    country := "US"
    capacityFactor := netSummerCapacity.map (fun v => v / eiaNameplate item * 100)
    netSummerCapacity := netSummerCapacity
    netWinterCapacity := parseFloatField item.netWinterCapacityMw
    rawData := some item.raw }

/-- Model of `transformEIAItemToPowerPlant` of `progressIndicator.ts`: parse the
numeric fields, drop the record (`none`) when a coordinate is `NaN` or the
nameplate capacity is not strictly positive, otherwise build the facility. -/
def transformEIAItemToPowerPlant (item : EIAItem) : Option PowerPlant :=
  match parseFloatField item.latitude, parseFloatField item.longitude with
  | some lat, some lon =>
    if eiaNameplate item ≤ 0 then none
    else some (eiaPlant item lon lat)
  | _, _ => none

/-! ## Source loading (`loadAndProcessAllPowerPlants`)

The whole body of `loadAndProcessAllPowerPlants` sits inside a single
`try`; each source is an awaited fetch whose failure throws.  The model
takes each source's outcome (`Except` a network error, or the payload
text) and mirrors the control flow: any failure reaches the `catch`,
which returns the empty list. -/

/-- Model of `loadAndProcessAllPowerPlants` of `unifiedPowerPlantProcessor.ts` as a
function of the two fetch outcomes: parse both CSVs, concatenate, and
aggregate — unless any fetch failed, in which case the `catch` block
yields `[]`. -/
def loadAndProcessAllPowerPlants
    (largeRes renewableRes : Except String String) : List PowerPlant :=
  match largeRes, renewableRes with
  | .ok largeText, .ok renewableText =>
    aggregatePowerPlants
      (parsePowerPlantCSV largeText PlantType.large ++
       parsePowerPlantCSV renewableText PlantType.renewable)
  | _, _ => []

/-! ## Compressed durable cache (`CacheManager`)

`localStorage` becomes an association list from full keys to stored
strings.  The two external decoding steps — `JSON.parse` of the stored
entry and the LZString decompress/deserialize chain — are opaque
collaborators, so they are parameters: `none` models a thrown error. -/

/-- Cache entry metadata (`CacheMetadata`). -/
structure CacheMetadata where
  timestamp : ℤ
  version : String
  size : ℕ
  compressedSize : ℕ
  compressed : Bool
  deriving DecidableEq, Repr

/-- A stored cache entry (`CacheEntry`). -/
structure CacheEntry where
  metadata : CacheMetadata
  data : String
  deriving DecidableEq, Repr

/-- The string prepended to every cache key (`CACHE_PREFIX`). -/
def cachePrefixStr : String := "mapping_infra_cache_"

/-- Model of `localStorage.removeItem`. -/
def removeStore (store : List (String × String)) (k : String) :
    List (String × String) :=
  store.filter (fun e => e.1 ≠ k)

/-- Model of `CacheManager.getCachedData`: read the prefixed key and parse the
stored JSON; an absent key or a parse failure (the `catch`) yields `null`. -/
def getCachedData (parseEntry : String → Option CacheEntry)
    (store : List (String × String)) (key : String) : Option CacheEntry :=
  match lookupAssoc store (cachePrefixStr ++ key) with
  | none => none
  | some cached => parseEntry cached

/-- Model of `CacheManager.clearCache` with a key: remove that entry. -/
def clearCache (store : List (String × String)) (key : String) :
    List (String × String) :=
  removeStore store (cachePrefixStr ++ key)

/-- Model of `CacheManager.isCacheValid`: pure comparison of the entry's age
against the TTL. -/
def isCacheValid (now : ℤ) (entry : CacheEntry) (maxAgeMs : ℤ) : Bool :=
  ¬(now - entry.metadata.timestamp > maxAgeMs)

/-- Model of `CacheManager.getDecompressedData`: read the entry, then decompress
and deserialize; on a failure of that chain evict the entry and return
`null`.  Returns the result together with the storage state after the
call. -/
def getDecompressedData {α : Type} (parseEntry : String → Option CacheEntry)
    (decompress : String → Option α) (store : List (String × String))
    (key : String) : Option α × List (String × String) :=
  match getCachedData parseEntry store key with
  | none => (none, store)
  | some entry =>
    match decompress entry.data with
    | some v => (some v, store)
    | none => (none, clearCache store key)

/-! ## Streaming JSON parser (`src/utils/streamingJsonParser.ts`)

`parseJsonArrayStream` scans the accumulated buffer character by
character with persistent string/escape/bracket state, cuts candidate
item texts at commas and closing braces seen at array depth, feeds each
candidate to `JSON.parse` (skipping candidates that fail), and finishes
either at the `]` that closes the top-level array or at end of stream.
The model takes the stream as the list of chunk strings the reader
delivers and returns the emitted items plus the completion count. -/

/-- Structured JSON values. -/
inductive Json where
  | null
  | bool (b : Bool)
  | num (q : ℚ)
  | str (s : String)
  | arr (elems : List Json)
  | obj (fields : List (String × Json))

/-- JSON whitespace. -/
def isJsonWs (c : Char) : Bool :=
  c = ' ' || c = '\n' || c = '\t' || c = '\r'

/-- Decoded character for a JSON string escape. -/
def unescapeChar (c : Char) : Option Char :=
  if c = '"' then some '"'
  else if c = '\\' then some '\\'
  else if c = '/' then some '/'
  else if c = 'n' then some '\n'
  else if c = 't' then some '\t'
  else if c = 'r' then some '\r'
  else none

/-- Body of a JSON string literal after the opening quote: returns the
decoded text and the characters after the closing quote.  (`\u` escapes
are not modelled; no payload in this development uses them.) -/
def parseJsonString : List Char → String → Option (String × List Char)
  | [], _ => none
  | '"' :: rest, acc => some (acc, rest)
  | '\\' :: e :: rest, acc =>
    match unescapeChar e with
    | some d => parseJsonString rest (acc.push d)
    | none => none
  | '\\' :: [], _ => none
  | c :: rest, acc => parseJsonString rest (acc.push c)

/-- JSON number literal: optional minus, digits, optional fraction.
(Exponents are not modelled; no payload in this development uses them.) -/
def parseJsonNumber (cs : List Char) : Option (ℚ × List Char) :=
  let (neg, cs) := match cs with
    | '-' :: rest => (true, rest)
    | _ => (false, cs)
  let intPart := cs.takeWhile (fun c => c.isDigit)
  let rest := cs.dropWhile (fun c => c.isDigit)
  if intPart.isEmpty then none
  else
    let fr : List Char × List Char := match rest with
      | '.' :: r =>
        (r.takeWhile (fun c => c.isDigit), r.dropWhile (fun c => c.isDigit))
      | _ => ([], rest)
    let fracPart := fr.1
    let rest2 := fr.2
    if rest.head? = some '.' ∧ fracPart.isEmpty then none
    else
      let mag : ℚ := (digitsToNat intPart : ℚ) +
        (digitsToNat fracPart : ℚ) / ((10 : ℚ) ^ fracPart.length)
      some (if neg then -mag else mag, rest2)

mutual

/-- Recursive-descent JSON value parser (fuel-bounded). -/
def parseJsonValue : Nat → List Char → Option (Json × List Char)
  | 0, _ => none
  | fuel + 1, cs =>
    match cs.dropWhile (fun c => isJsonWs c) with
    | '{' :: rest =>
      (match rest.dropWhile (fun c => isJsonWs c) with
       | '}' :: rest2 => some (.obj [], rest2)
       | _ => parseJsonMembers fuel rest [])
    | '[' :: rest =>
      (match rest.dropWhile (fun c => isJsonWs c) with
       | ']' :: rest2 => some (.arr [], rest2)
       | _ => parseJsonElements fuel rest [])
    | '"' :: rest =>
      (parseJsonString rest "").map (fun r => (.str r.1, r.2))
    | 't' :: 'r' :: 'u' :: 'e' :: rest => some (.bool true, rest)
    | 'f' :: 'a' :: 'l' :: 's' :: 'e' :: rest => some (.bool false, rest)
    | 'n' :: 'u' :: 'l' :: 'l' :: rest => some (.null, rest)
    | other => (parseJsonNumber other).map (fun r => (.num r.1, r.2))

/-- Object members after `{` (at least one expected). -/
def parseJsonMembers (fuel : Nat) (cs : List Char)
    (acc : List (String × Json)) : Option (Json × List Char) :=
  match fuel with
  | 0 => none
  | fuel + 1 =>
    match cs.dropWhile (fun c => isJsonWs c) with
    | '"' :: rest =>
      match parseJsonString rest "" with
      | none => none
      | some (key, rest2) =>
        match rest2.dropWhile (fun c => isJsonWs c) with
        | ':' :: rest3 =>
          match parseJsonValue fuel rest3 with
          | none => none
          | some (v, rest4) =>
            match rest4.dropWhile (fun c => isJsonWs c) with
            | ',' :: rest5 => parseJsonMembers fuel rest5 (acc ++ [(key, v)])
            | '}' :: rest5 => some (.obj (acc ++ [(key, v)]), rest5)
            | _ => none
        | _ => none
    | _ => none

/-- Array elements after `[` (at least one expected). -/
def parseJsonElements (fuel : Nat) (cs : List Char) (acc : List Json) :
    Option (Json × List Char) :=
  match fuel with
  | 0 => none
  | fuel + 1 =>
    match parseJsonValue fuel cs with
    | none => none
    | some (v, rest) =>
      match rest.dropWhile (fun c => isJsonWs c) with
      | ',' :: rest2 => parseJsonElements fuel rest2 (acc ++ [v])
      | ']' :: rest2 => some (.arr (acc ++ [v]), rest2)
      | _ => none

end

/-- Model of `JSON.parse`: parse one value and insist nothing but
whitespace follows.  `none` models a thrown `SyntaxError`. -/
def jsJsonParse (s : String) : Option Json :=
  match parseJsonValue (s.length + 1) s.toList with
  | some (v, rest) => if rest.dropWhile (fun c => isJsonWs c) = [] then some v else none
  | none => none

/-- Outcome of the buffer scan (`for (let i = 0; i < buffer.length; i++)`)
with the scanner state at the moment the loop stopped: the `]` that closes
the top-level array (the function returns), a candidate item boundary
`itemEnd`, or no boundary found. -/
inductive ScanResult where
  | endArray (pos : Nat) (inArray : Bool) (bc : Int) (inString escapeNext : Bool)
  | found (itemEnd : Nat) (inArray : Bool) (bc : Int) (inString escapeNext : Bool)
  | noItem (inArray : Bool) (bc : Int) (inString escapeNext : Bool)
  deriving DecidableEq, Repr

/-- The character scan of `parseJsonArrayStream`: escape handling, string
boundaries, bracket counting, and the two item-boundary conditions (a `}`
returning to depth 1 inside the array, or a comma at depth 1). -/
def scanBuffer : List Char → Nat → Bool → Int → Bool → Bool → ScanResult
  | [], _, inArray, bc, inString, escapeNext => .noItem inArray bc inString escapeNext
  | c :: rest, i, inArray, bc, inString, escapeNext =>
    if escapeNext then scanBuffer rest (i + 1) inArray bc inString false
    else if c = '\\' ∧ inString then scanBuffer rest (i + 1) inArray bc inString true
    else if c = '"' then scanBuffer rest (i + 1) inArray bc (!inString) escapeNext
    else if inString then scanBuffer rest (i + 1) inArray bc inString escapeNext
    else if c = '[' then scanBuffer rest (i + 1) true (bc + 1) inString escapeNext
    else if c = ']' then
      if bc - 1 = 0 ∧ inArray then .endArray (i + 1) inArray (bc - 1) inString escapeNext
      else scanBuffer rest (i + 1) inArray (bc - 1) inString escapeNext
    else if c = '{' then scanBuffer rest (i + 1) inArray (bc + 1) inString escapeNext
    else if c = '}' then
      if bc - 1 = 1 ∧ inArray then .found (i + 1) inArray (bc - 1) inString escapeNext
      else scanBuffer rest (i + 1) inArray (bc - 1) inString escapeNext
    else if c = ',' ∧ bc = 1 ∧ inArray then .found i inArray bc inString escapeNext
    else scanBuffer rest (i + 1) inArray bc inString escapeNext

/-- The mutable state of one `parseJsonArrayStream` call: the unconsumed
buffer, the scanner flags, and the emissions so far. -/
structure StreamState where
  buffer : List Char
  itemIndex : Nat
  inArray : Bool
  bracketCount : Int
  inString : Bool
  escapeNext : Bool
  items : List Json

/-- Initial parser state. -/
def initialStreamState : StreamState :=
  { buffer := [], itemIndex := 0, inArray := false, bracketCount := 0,
    inString := false, escapeNext := false, items := [] }

/-- Write back the scanner flags (and the remaining buffer) after a scan. -/
def scanUpdate (st : StreamState) (buf : List Char) (ia : Bool) (bc : Int)
    (istr esc : Bool) : StreamState :=
  { st with
    buffer := buf
    inArray := ia
    bracketCount := bc
    inString := istr
    escapeNext := esc }

/-- The inner `while (buffer.length > 0)` loop: scan for a boundary; on a
candidate with `itemEnd > 0`, `JSON.parse` it (a failure just skips it)
and drop the consumed text plus the following character; otherwise wait
for more data.  The `Bool` is true when the closing `]` was reached and
the function returned.  Fuel bounds the iterations; each consuming branch
drops at least one character, so `buffer.length` iterations suffice. -/
def processBuffer : Nat → StreamState → StreamState × Bool
  | 0, st => (st, false)
  | fuel + 1, st =>
    if st.buffer.isEmpty then (st, false)
    else
      match scanBuffer st.buffer 0 st.inArray st.bracketCount st.inString
          st.escapeNext with
      | .endArray pos ia bc istr esc =>
        (scanUpdate st (st.buffer.drop pos) ia bc istr esc, true)
      | .found itemEnd ia bc istr esc =>
        if 0 < itemEnd then
          let itemStr := String.mk (st.buffer.take itemEnd)
          let st1 := match jsJsonParse itemStr with
            | some v =>
              { st with items := st.items ++ [v], itemIndex := st.itemIndex + 1 }
            | none => st
          processBuffer fuel
            (scanUpdate st1 (st.buffer.drop (itemEnd + 1)) ia bc istr esc)
        else
          (scanUpdate st st.buffer ia bc istr esc, false)
      | .noItem ia bc istr esc =>
        (scanUpdate st st.buffer ia bc istr esc, false)

/-- The outer read loop: append each delivered chunk to the buffer and
process; stop early at the array's `]`, otherwise finish at end of stream
(`done`) with the count of items parsed so far. -/
def runChunks : StreamState → List String → List Json × Nat
  | st, [] => (st.items, st.itemIndex)
  | st, chunk :: rest =>
    let st1 := { st with buffer := st.buffer ++ chunk.toList }
    let (st2, finished) := processBuffer (st1.buffer.length + 1) st1
    if finished then (st2.items, st2.itemIndex) else runChunks st2 rest

/-- Model of `parseJsonArrayStream` as a function of the chunk sequence: the items
passed to `onItem` (in order) and the total reported to `onComplete`. -/
def parseJsonArrayStream (chunks : List String) : List Json × Nat :=
  runChunks initialStreamState chunks

/-- Whole-buffer parsing of an array payload: `JSON.parse` the entire
text and take the array's elements. -/
def wholeBufferItems (payload : String) : Option (List Json) :=
  match jsJsonParse payload with
  | some (.arr elems) => some elems
  | _ => none

/-! ## Proximity geometry (`src/utils/geoUtils.ts`)

The floating-point trigonometry is idealised over `ℝ`.  The repository
holds two revisions of `distanceToLineSegment`: the current one (clamped
projection onto the segment, then Haversine to the projected point) and
an older endpoint-minimum approximation, embedded here as
`distanceToLineSegmentEndpoints`. -/

/-- Model of `toRadians`. -/
noncomputable def toRadians (degrees : ℝ) : ℝ :=
  degrees * (Real.pi / 180)

/-- JavaScript `Math.atan2(y, x)` (for finite arguments). -/
noncomputable def atan2 (y x : ℝ) : ℝ :=
  if 0 < x then Real.arctan (y / x)
  else if x < 0 ∧ 0 ≤ y then Real.arctan (y / x) + Real.pi
  else if x < 0 ∧ y < 0 then Real.arctan (y / x) - Real.pi
  else if x = 0 ∧ 0 < y then Real.pi / 2
  else if x = 0 ∧ y < 0 then -(Real.pi / 2)
  else 0

/-- Model of `calculateDistance`: Haversine great-circle distance in miles between
two `(longitude, latitude)` pairs, with Earth radius `3958.8` miles. -/
noncomputable def calculateDistance (coord1 coord2 : ℝ × ℝ) : ℝ :=
  let earthR : ℝ := 3958.8
  let dLat := toRadians (coord2.2 - coord1.2)
  let dLon := toRadians (coord2.1 - coord1.1)
  let a := Real.sin (dLat / 2) * Real.sin (dLat / 2) +
    Real.cos (toRadians coord1.2) * Real.cos (toRadians coord2.2) *
    (Real.sin (dLon / 2) * Real.sin (dLon / 2))
  let c := 2 * atan2 (Real.sqrt a) (Real.sqrt (1 - a))
  earthR * c

/-- Model of `distanceToLineSegment` (current revision): project the point onto
the segment in coordinate space, clamp the parameter to the segment, and
measure the Haversine distance to the resulting point.  A zero-length
segment leaves the parameter at `-1`, selecting the start endpoint. -/
noncomputable def distanceToLineSegment (point lineStart lineEnd : ℝ × ℝ) : ℝ :=
  let ax := point.1 - lineStart.1
  let ay := point.2 - lineStart.2
  let cx := lineEnd.1 - lineStart.1
  let cy := lineEnd.2 - lineStart.2
  let dot := ax * cx + ay * cy
  let lenSq := cx * cx + cy * cy
  let param := if lenSq ≠ 0 then dot / lenSq else -1
  let xx := if param < 0 then lineStart.1
    else if 1 < param then lineEnd.1
    else lineStart.1 + param * cx
  let yy := if param < 0 then lineStart.2
    else if 1 < param then lineEnd.2
    else lineStart.2 + param * cy
  calculateDistance point (xx, yy)

/-- Model of `distanceToLineSegment` (older revision): minimum of the Haversine
distances to the two endpoints. -/
noncomputable def distanceToLineSegmentEndpoints
    (point lineStart lineEnd : ℝ × ℝ) : ℝ :=
  min (calculateDistance point lineStart) (calculateDistance point lineEnd)

/-- Consecutive coordinate pairs of a polyline. -/
def lineSegments {α : Type} (line : List α) : List (α × α) :=
  line.zip (line.drop 1)

/-- Model of `isPointNearLine`: true when some segment of the polyline is within
`maxDistance` of the point. -/
noncomputable def isPointNearLine (point : ℝ × ℝ) (line : List (ℝ × ℝ))
    (maxDistance : ℝ) : Prop :=
  ∃ s ∈ lineSegments line, distanceToLineSegment point s.1 s.2 ≤ maxDistance

/-- Modelled from the spec, §4.3: the closest point of the segment in
coordinate space — the point's projection onto the segment's line with
the parameter clamped to the endpoints (the start endpoint for a
degenerate segment). -/
noncomputable def closestPointOnSegment (point a b : ℝ × ℝ) : ℝ × ℝ :=
  let lenSq := (b.1 - a.1) * (b.1 - a.1) + (b.2 - a.2) * (b.2 - a.2)
  if lenSq = 0 then a
  else
    let t := ((point.1 - a.1) * (b.1 - a.1) + (point.2 - a.2) * (b.2 - a.2)) / lenSq
    let tc := max 0 (min 1 t)
    (a.1 + tc * (b.1 - a.1), a.2 + tc * (b.2 - a.2))

/-- Modelled from the spec, §4.3: `isNear(point, segmentEndpoints, radius)`
— the great-circle (Haversine, Earth radius 3958.8 miles) distance from
the point to the closest point of the segment is at most the radius. -/
noncomputable def isNear (point a b : ℝ × ℝ) (radius : ℝ) : Prop :=
  calculateDistance point (closestPointOnSegment point a b) ≤ radius

/-! ## Concrete inputs used by witnesses and counterexamples -/

/-- A CSV whose single data row carries a latitude of `200.0` — a finite
number far outside `[-90, 90]`. -/
def latOutOfRangeCsv : String :=
  "Facility Name,Country,Latitude,Longitude,Total Capacity (MW),Primary Energy Source\nBad Plant,Canada,200.0,-75.0,100.0,Coal"

/-- A CSV with one well-formed data row. -/
def goodRowCsv : String :=
  "Facility Name,Country,Latitude,Longitude,Total Capacity (MW),Primary Energy Source\nGood Plant,Canada,45.0,-75.0,100.0,Coal"

/-- The facility `parsePowerPlantCSV` produces from `goodRowCsv`. -/
def goodRowPlant : PowerPlant :=
  { id := "plant-large-1"
    name := "Good Plant"
    output := 100
    outputDisplay := "100.0 MW"
    source := "coal"
    coordinates := (-75, 45)
    country := "CA"
    rawData := some [("Facility Name", "Good Plant"), ("Country", "Canada"),
      ("Latitude", "45.0"), ("Longitude", "-75.0"),
      ("Total Capacity (MW)", "100.0"), ("Primary Energy Source", "Coal")] }

/-- A facility whose stored display string does not match its capacity. -/
def staleDisplayPlant : PowerPlant :=
  { id := "plant-large-1"
    name := "Stale Plant"
    output := 100
    outputDisplay := "bogus"
    source := "coal"
    coordinates := (-75, 45)
    country := "CA" }

/-- First of two facilities with distinct Aggregation Keys. -/
def distinctKeyPlantA : PowerPlant :=
  { id := "plant-large-1"
    name := "Plant A"
    output := 100
    outputDisplay := "100.0 MW"
    source := "coal"
    coordinates := (-75, 45)
    country := "CA" }

/-- Second of two facilities with distinct Aggregation Keys. -/
def distinctKeyPlantB : PowerPlant :=
  { id := "plant-large-2"
    name := "Plant B"
    output := 50
    outputDisplay := "50.0 MW"
    source := "wind"
    coordinates := (-80, 50)
    country := "CA" }

/-- A facility with a capacity factor, sharing its key with
`cfPlantTwo`. -/
def cfPlantOne : PowerPlant :=
  { id := "plant-large-1"
    name := "CF Plant"
    output := 1
    outputDisplay := "1.0 MW"
    source := "hydro"
    coordinates := (-75, 45)
    country := "CA"
    capacityFactor := some 10 }

/-- A second facility with the same Aggregation Key as `cfPlantOne` and
its own capacity factor. -/
def cfPlantTwo : PowerPlant :=
  { id := "plant-large-2"
    name := "CF Plant"
    output := 3
    outputDisplay := "3.0 MW"
    source := "hydro"
    coordinates := (-75, 45)
    country := "CA"
    capacityFactor := some 20 }

/-- A renewable-CSV payload that parses to one valid facility. -/
def renewableOkCsv : String :=
  "Facility Name,Country,Latitude,Longitude,Total Capacity (MW),Primary Renewable Energy Source\nWind Farm,Canada,50.0,-80.0,50.0,Wind"

/-- A CSV whose data row has only five of the six header columns, though
its name, coordinates and capacity cells are all present and valid. -/
def shortRowCsv : String :=
  "Facility Name,Country,Latitude,Longitude,Total Capacity (MW),Primary Energy Source\nShort Plant,Canada,45.0,-75.0,100.0"

/-- Header list of `shortRowCsv`. -/
def shortRowHeaders : List String :=
  ["Facility Name", "Country", "Latitude", "Longitude",
   "Total Capacity (MW)", "Primary Energy Source"]

/-- The five-field data row of `shortRowCsv`. -/
def shortRowLine : String :=
  "Short Plant,Canada,45.0,-75.0,100.0"

/-- An entry parser that accepts every stored string (used to exercise the
cache theorems at a concrete input). -/
def alwaysParseEntry : String → Option CacheEntry :=
  fun _ => some
    { metadata :=
        { timestamp := 0
          version := "v1"
          size := 4
          compressedSize := 2
          compressed := true }
      data := "blob" }

/-- A decompression chain that always fails, modelling a corrupted
payload. -/
def alwaysFailDecompress : String → Option Nat :=
  fun _ => none

/-- A storage state holding one entry under the cache namespace. -/
def oneEntryStore : List (String × String) :=
  [("mapping_infra_cache_cables", "rawbytes")]

/-- The two-object array payload `[{"a":1},{"b":2}]`. -/
def twoItemPayload : String :=
  "[\x7b\"a\":1\x7d,\x7b\"b\":2\x7d]"

/-! ## Helper lemmas -/

theorem lookupAssoc_eq_none {α : Type} (l : List (String × α)) (key : String) :
    lookupAssoc l key = none ↔ key ∉ l.map Prod.fst := by
  induction l with
  | nil => simp [lookupAssoc]
  | cons kv rest ih =>
    by_cases h : kv.1 = key
    · simp [lookupAssoc, h]
    · simp [lookupAssoc, h, ih, Ne.symm h]

theorem lookupAssoc_remove_self (store : List (String × String)) (k : String) :
    lookupAssoc (removeStore store k) k = none := by
  induction store with
  | nil => rfl
  | cons kv rest ih =>
    by_cases h : kv.1 = k
    · simp only [removeStore] at ih ⊢
      simpa [h] using ih
    · simp only [removeStore] at ih ⊢
      simpa [lookupAssoc, h] using ih

/-! ## Claim C1 — streaming/whole-buffer equivalence -/

/-- C1: the claim asserts that for every JSON array payload and chunking,
the streaming parser's item sequence and count match whole-buffer parsing.
The code refutes it: on the payload `[{"a":1},{"b":2}]` delivered as one
chunk, the candidate text cut for the first item still contains the
leading `[`, so its `JSON.parse` fails and the item is skipped — the
stream emits only the second object and reports one item, while
whole-buffer parsing yields both objects. -/
theorem parseJsonArrayStream_drops_first_item :
    parseJsonArrayStream [twoItemPayload] =
      ([Json.obj [("b", Json.num 2)]], 1) ∧
    wholeBufferItems twoItemPayload =
      some [Json.obj [("a", Json.num 1)], Json.obj [("b", Json.num 2)]] := by
  constructor
  · with_unfolding_all rfl
  · with_unfolding_all rfl

/-! ## Claim C6 — per-source degradation of `loadAndProcessAllPowerPlants` -/

/-- C6 counterexample: when the first source fails and the second is
retrieved successfully, the claim requires the aggregated list built from
the successful source; the single `try/catch` instead returns the empty
list even though that aggregated list is nonempty. -/
theorem load_one_failure_returns_empty :
    loadAndProcessAllPowerPlants (Except.error "network error")
      (Except.ok renewableOkCsv) = [] ∧
    aggregatePowerPlants
      (parsePowerPlantCSV renewableOkCsv PlantType.renewable) ≠ [] := by
  refine ⟨rfl, of_decide_eq_true ?_⟩
  with_unfolding_all rfl

/-- C6 amended: any source failure makes `loadAndProcessAllPowerPlants`
return the empty list (the failed source does not contribute partially —
everything is discarded); only when every source is retrieved does it
return the aggregation of all parsed sources; no failure case escapes as
an error. -/
theorem load_failure_empty_success_aggregates (e : String)
    (r : Except String String) (t1 t2 : String) :
    loadAndProcessAllPowerPlants (Except.error e) r = [] ∧
    loadAndProcessAllPowerPlants r (Except.error e) = [] ∧
    loadAndProcessAllPowerPlants (Except.ok t1) (Except.ok t2) =
      aggregatePowerPlants
        (parsePowerPlantCSV t1 PlantType.large ++
         parsePowerPlantCSV t2 PlantType.renewable) := by
  refine ⟨?_, ?_, rfl⟩ <;> cases r <;> rfl

/-! ## Claim C8 — failed cache reads never resurface -/

/-- C8: after a `getDecompressedData` call that returns nothing — the key
is absent, the stored entry fails to parse, or the decompress/deserialize
chain fails (in which case the entry is evicted) — a subsequent
`getCachedData` on the same key returns nothing. -/
theorem getDecompressedData_failure_then_getCachedData_none {α : Type}
    (parseEntry : String → Option CacheEntry) (decompress : String → Option α)
    (store : List (String × String)) (key : String)
    (h : (getDecompressedData parseEntry decompress store key).1 = none) :
    getCachedData parseEntry
      (getDecompressedData parseEntry decompress store key).2 key = none := by
  cases hc : getCachedData parseEntry store key with
  | none =>
    simp only [getDecompressedData, hc]
  | some entry =>
    cases hd : decompress entry.data with
    | none =>
      simp only [getDecompressedData, hc, hd, clearCache]
      unfold getCachedData
      rw [lookupAssoc_remove_self]
    | some v =>
      exfalso
      simp [getDecompressedData, hc, hd] at h

/-- C8 witness: a concrete store with one corrupted entry; after the
failing read, the entry is gone. -/
theorem getDecompressedData_failure_witness :
    getCachedData alwaysParseEntry
      (getDecompressedData alwaysParseEntry alwaysFailDecompress
        oneEntryStore "cables").2 "cables" = none :=
  getDecompressedData_failure_then_getCachedData_none
    alwaysParseEntry alwaysFailDecompress oneEntryStore "cables" rfl

/-! ## Claim C9 — rows with fewer fields than the header are dropped -/

/-- C9: a nonempty data row whose quote-aware split yields fewer fields
than the header has columns is dropped by the row-length guard, before
any field is even read; in particular `shortRowCsv`, whose one row has
valid name, coordinates and capacity but only five of six columns,
parses to the empty facility list. -/
theorem short_rows_are_dropped :
    (∀ headers : List String, ∀ ty : PlantType, ∀ i : Nat, ∀ line : String,
      line.trim ≠ "" →
      (parseCsvRow line.trim).length < headers.length →
      processRow headers ty i line = none) ∧
    parsePowerPlantCSV shortRowCsv PlantType.large = [] := by
  constructor
  · intro headers ty i line h1 h2
    simp [processRow, h1, h2]
  · with_unfolding_all rfl

/-- C9 witness: the five-field row of `shortRowCsv` against its six-column
header. -/
theorem short_rows_are_dropped_witness :
    processRow shortRowHeaders PlantType.large 1 shortRowLine = none ∧
    parsePowerPlantCSV shortRowCsv PlantType.large = [] :=
  ⟨short_rows_are_dropped.1 shortRowHeaders PlantType.large 1 shortRowLine
      (of_decide_eq_true (by with_unfolding_all rfl))
      (of_decide_eq_true (by with_unfolding_all rfl)),
    short_rows_are_dropped.2⟩

/-! ## Claim C2 — ingestion validation invariant -/

/-- C2 counterexample: the claim requires every output facility's latitude
to lie in `[-90, 90]`, but `parsePowerPlantCSV` only rejects coordinates
that fail to parse (`NaN`); a row with latitude `200.0` produces an output
facility with latitude `200`. -/
theorem parse_keeps_out_of_range_latitude :
    (parsePowerPlantCSV latOutOfRangeCsv PlantType.large).map
      (fun p => p.coordinates) = [(-75, 200)] ∧
    ¬((200 : ℚ) ≤ 90) := by
  constructor
  · with_unfolding_all rfl
  · exact of_decide_eq_true (by with_unfolding_all rfl)

/-- Row processing only emits facilities with positive capacity. -/
theorem processRow_output_pos {headers : List String} {ty : PlantType}
    {i : Nat} {line : String} {p : PowerPlant}
    (h : processRow headers ty i line = some p) : 0 < p.output := by
  simp only [processRow] at h
  repeat' split at h
  all_goals first
    | exact Option.noConfusion h
    | (cases h; simp_all [rowPlant])

/-- The EIA transform only emits facilities with positive capacity. -/
theorem transformEIA_output_pos {item : EIAItem} {p : PowerPlant}
    (h : transformEIAItemToPowerPlant item = some p) : 0 < p.output := by
  simp only [transformEIAItemToPowerPlant] at h
  repeat' split at h
  all_goals first
    | exact Option.noConfusion h
    | (cases h; simp_all [eiaPlant, not_le])

/-- C2 amended: every facility in the output of `parsePowerPlantCSV` or of
the EIA record transform has strictly positive capacity, and its
coordinates are values that parsed as numbers (the `NaN` filter); the
ranges `[-180, 180]` / `[-90, 90]` are not enforced, so finite
out-of-range coordinates pass through (see the counterexample). -/
theorem ingestion_positive_capacity :
    (∀ csv : String, ∀ ty : PlantType, ∀ p : PowerPlant,
      p ∈ parsePowerPlantCSV csv ty → 0 < p.output) ∧
    (∀ item : EIAItem, ∀ p : PowerPlant,
      transformEIAItemToPowerPlant item = some p → 0 < p.output) := by
  constructor
  · intro csv ty p hp
    unfold parsePowerPlantCSV at hp
    obtain ⟨a, _, ha⟩ := List.mem_filterMap.mp hp
    exact processRow_output_pos ha
  · intro item p hp
    exact transformEIA_output_pos hp

/-- C2 amended witness: the facility parsed from `goodRowCsv` is in the
output and its capacity is positive. -/
theorem ingestion_positive_capacity_witness :
    goodRowPlant ∈ parsePowerPlantCSV goodRowCsv PlantType.large ∧
    0 < goodRowPlant.output :=
  ⟨of_decide_eq_true (by with_unfolding_all rfl),
    ingestion_positive_capacity.1 goodRowCsv PlantType.large goodRowPlant
      (of_decide_eq_true (by with_unfolding_all rfl))⟩

/-! ## Claim C4 — aggregation is the identity on key-distinct lists -/

/-- Inserting a plant whose key is absent appends it unchanged. -/
theorem aggStep_fresh_key (acc : List (String × PowerPlant)) (p : PowerPlant)
    (h : aggKey p ∉ acc.map Prod.fst) :
    aggStep acc p = acc ++ [(aggKey p, p)] := by
  unfold aggStep
  simp only [(lookupAssoc_eq_none acc (aggKey p)).mpr h]

/-- Folding key-distinct plants into the map just lists them in order. -/
theorem foldl_aggStep_of_nodup (l : List PowerPlant) :
    ∀ acc : List (String × PowerPlant),
      (acc.map Prod.fst ++ l.map aggKey).Nodup →
      l.foldl aggStep acc = acc ++ l.map (fun p => (aggKey p, p)) := by
  induction l with
  | nil => intro acc _; simp
  | cons p rest ih =>
    intro acc h
    have hsplit := List.nodup_append.mp h
    have hfresh : aggKey p ∉ acc.map Prod.fst := by
      intro hmem
      exact hsplit.2.2 hmem (List.mem_cons_self _ _)
    rw [List.foldl_cons, aggStep_fresh_key acc p hfresh]
    have h' : ((acc ++ [(aggKey p, p)]).map Prod.fst ++
        (rest.map aggKey)).Nodup := by
      have : acc.map Prod.fst ++ (p :: rest).map aggKey =
          (acc.map Prod.fst ++ [aggKey p]) ++ rest.map aggKey := by
        simp
      rw [this] at h
      simpa using h
    rw [ih (acc ++ [(aggKey p, p)]) h']
    simp

/-- C4: on a list in which no two facilities share an Aggregation Key —
in particular on any already-aggregated list — `aggregatePowerPlants`
merges nothing and returns its input, element for element and in order. -/
theorem aggregatePowerPlants_idempotent (l : List PowerPlant)
    (h : (l.map aggKey).Nodup) : aggregatePowerPlants l = l := by
  unfold aggregatePowerPlants
  rw [foldl_aggStep_of_nodup l [] (by simpa using h)]
  simp only [List.nil_append, List.map_map]
  exact List.map_id l

/-- C4 witness: two facilities with different Aggregation Keys pass
through aggregation untouched. -/
theorem aggregatePowerPlants_idempotent_witness :
    ([distinctKeyPlantA, distinctKeyPlantB].map aggKey).Nodup ∧
    aggregatePowerPlants [distinctKeyPlantA, distinctKeyPlantB] =
      [distinctKeyPlantA, distinctKeyPlantB] :=
  ⟨of_decide_eq_true (by with_unfolding_all rfl),
    aggregatePowerPlants_idempotent [distinctKeyPlantA, distinctKeyPlantB]
      (of_decide_eq_true (by with_unfolding_all rfl))⟩

/-! ## Aggregation invariant (Claims C3 and C5) -/

theorem lookupAssoc_append {α : Type} (l₁ l₂ : List (String × α)) (k : String) :
    lookupAssoc (l₁ ++ l₂) k =
      match lookupAssoc l₁ k with
      | some v => some v
      | none => lookupAssoc l₂ k := by
  induction l₁ with
  | nil => simp [lookupAssoc]
  | cons kv rest ih => by_cases h : kv.1 = k <;> simp [lookupAssoc, h, ih]

theorem lookupAssoc_update_self {α : Type} (l : List (String × α)) (k : String)
    (v nv : α) (h : lookupAssoc l k = some v) :
    lookupAssoc (updateAssoc l k nv) k = some nv := by
  induction l with
  | nil => simp [lookupAssoc] at h
  | cons kv rest ih =>
    by_cases hk : kv.1 = k
    · simp [updateAssoc, lookupAssoc, hk]
    · simp only [lookupAssoc, hk, if_false] at h
      simp [updateAssoc, lookupAssoc, hk, ih h]

theorem lookupAssoc_update_ne {α : Type} (l : List (String × α)) (k k' : String)
    (nv : α) (h : k' ≠ k) :
    lookupAssoc (updateAssoc l k nv) k' = lookupAssoc l k' := by
  induction l with
  | nil => rfl
  | cons kv rest ih =>
    by_cases hk : kv.1 = k
    · subst hk
      simp [updateAssoc, lookupAssoc, Ne.symm h]
    · by_cases hk' : kv.1 = k' <;>
        simp [updateAssoc, lookupAssoc, hk, hk', h, ih]

theorem updateAssoc_map_fst {α : Type} (l : List (String × α)) (k : String)
    (nv : α) : (updateAssoc l k nv).map Prod.fst = l.map Prod.fst := by
  induction l with
  | nil => rfl
  | cons kv rest ih => by_cases hk : kv.1 = k <;> simp [updateAssoc, hk, ih]

theorem lookupAssoc_of_mem_nodup {α : Type} (l : List (String × α))
    (hn : (l.map Prod.fst).Nodup) (kv : String × α) (h : kv ∈ l) :
    lookupAssoc l kv.1 = some kv.2 := by
  induction l with
  | nil => cases h
  | cons hd rest ih =>
    rcases List.mem_cons.mp h with heq | hmem
    · subst heq; simp [lookupAssoc]
    · have hne : hd.1 ≠ kv.1 := by
        intro hc
        exact (List.nodup_cons.mp hn).1 (hc ▸ List.mem_map_of_mem Prod.fst hmem)
      simp only [lookupAssoc, hne, if_false]
      exact ih (List.nodup_cons.mp hn).2 hmem

theorem keyGroup_append_same (k : String) (l : List PowerPlant)
    (p : PowerPlant) (h : aggKey p = k) :
    keyGroup k (l ++ [p]) = keyGroup k l ++ [p] := by
  simp [keyGroup, List.filter_append, h]

theorem keyGroup_append_other (k : String) (l : List PowerPlant)
    (p : PowerPlant) (h : aggKey p ≠ k) :
    keyGroup k (l ++ [p]) = keyGroup k l := by
  simp [keyGroup, List.filter_append, h]

theorem sumOut_append_same (k : String) (l : List PowerPlant)
    (p : PowerPlant) (h : aggKey p = k) :
    sumOut k (l ++ [p]) = sumOut k l + p.output := by
  simp [sumOut, keyGroup_append_same k l p h]

theorem sumOut_append_other (k : String) (l : List PowerPlant)
    (p : PowerPlant) (h : aggKey p ≠ k) :
    sumOut k (l ++ [p]) = sumOut k l := by
  simp [sumOut, keyGroup_append_other k l p h]

theorem cfWeightedSum_append_same (k : String) (l : List PowerPlant)
    (p : PowerPlant) (h : aggKey p = k) :
    cfWeightedSum k (l ++ [p]) =
      cfWeightedSum k l + p.output * p.capacityFactor.getD 0 := by
  simp [cfWeightedSum, keyGroup_append_same k l p h]

theorem sumOut_pos (k : String) (l : List PowerPlant)
    (hne : keyGroup k l ≠ [])
    (hpos : ∀ p ∈ keyGroup k l, 0 < p.output) : 0 < sumOut k l := by
  unfold sumOut
  cases hg : keyGroup k l with
  | nil => exact absurd hg hne
  | cons q rest =>
    have hq : 0 < q.output := hpos q (hg ▸ List.mem_cons_self _ _)
    have hrest : 0 ≤ (rest.map PowerPlant.output).sum := by
      apply List.sum_nonneg
      intro x hx
      obtain ⟨r, hr, rfl⟩ := List.mem_map.mp hx
      exact le_of_lt (hpos r (hg ▸ List.mem_cons_of_mem _ hr))
    simp only [List.map_cons, List.sum_cons]
    exact add_pos_of_pos_of_nonneg hq hrest

theorem aggKey_mergePlants (e p : PowerPlant) :
    aggKey (mergePlants e p) = aggKey e := rfl

theorem mergePlants_output (e p : PowerPlant) :
    (mergePlants e p).output = e.output + p.output := rfl

theorem mergePlants_display (e p : PowerPlant) :
    (mergePlants e p).outputDisplay =
      jsToFixed 1 ((mergePlants e p).output) ++ " MW" := rfl

theorem mergePlants_cf_both (e p : PowerPlant) (ce cp : ℚ)
    (he : e.capacityFactor = some ce) (hp : p.capacityFactor = some cp) :
    (mergePlants e p).capacityFactor =
      some ((e.output * ce + p.output * cp) / (e.output + p.output)) := by
  simp [mergePlants, he, hp]

theorem mergePlants_cf_right_none (e p : PowerPlant)
    (hp : p.capacityFactor = none) :
    (mergePlants e p).capacityFactor = e.capacityFactor := by
  cases he : e.capacityFactor <;> simp [mergePlants, he, hp]

theorem mergePlants_cf_left_none (e p : PowerPlant) (cp : ℚ)
    (he : e.capacityFactor = none) (hp : p.capacityFactor = some cp) :
    (mergePlants e p).capacityFactor = some cp := by
  simp [mergePlants, he, hp]

/-- The loop invariant of `aggregatePowerPlants`: after folding
`processed`, the accumulated map has pairwise distinct keys; a key is
absent exactly when `processed` has no plant with that key; and the entry
stored under `k` carries the group-of-`k` summary — its own key is `k`,
its capacity is the group's capacity sum, it is the untouched input plant
when the group is a singleton, its display string is re-derived whenever
a merge has happened, and its capacity factor is the capacity-weighted
average (respectively: absent) when every group member has one
(respectively: none has one). -/
structure AggInv (acc : List (String × PowerPlant))
    (processed : List PowerPlant) : Prop where
  nodup : (acc.map Prod.fst).Nodup
  lookup_none : ∀ k, lookupAssoc acc k = none → keyGroup k processed = []
  key_eq : ∀ k e, lookupAssoc acc k = some e → aggKey e = k
  output_eq : ∀ k e, lookupAssoc acc k = some e → e.output = sumOut k processed
  group_ne : ∀ k e, lookupAssoc acc k = some e → keyGroup k processed ≠ []
  singleton_eq : ∀ k e q, lookupAssoc acc k = some e →
    keyGroup k processed = [q] → e = q
  display_eq : ∀ k e, lookupAssoc acc k = some e →
    2 ≤ (keyGroup k processed).length →
    e.outputDisplay = jsToFixed 1 e.output ++ " MW"
  cf_none : ∀ k e, lookupAssoc acc k = some e →
    (∀ p ∈ keyGroup k processed, p.capacityFactor = none) →
    e.capacityFactor = none
  cf_avg : ∀ k e, lookupAssoc acc k = some e →
    (∀ p ∈ keyGroup k processed, 0 < p.output ∧ p.capacityFactor.isSome) →
    e.capacityFactor = some (cfWeightedSum k processed / sumOut k processed)

theorem aggInv_nil : AggInv [] [] := by
  refine ⟨by simp, ?_, ?_, ?_, ?_, ?_, ?_, ?_, ?_⟩
  · intro k _; rfl
  · intro k e h; exact Option.noConfusion h
  · intro k e h; exact Option.noConfusion h
  · intro k e h; exact Option.noConfusion h
  · intro k e q h; exact Option.noConfusion h
  · intro k e h; exact Option.noConfusion h
  · intro k e h; exact Option.noConfusion h
  · intro k e h; exact Option.noConfusion h

theorem aggStep_eq_append (acc : List (String × PowerPlant)) (p : PowerPlant)
    (hl : lookupAssoc acc (aggKey p) = none) :
    aggStep acc p = acc ++ [(aggKey p, p)] := by
  unfold aggStep
  simp only [hl]

theorem aggStep_eq_update (acc : List (String × PowerPlant)) (p e : PowerPlant)
    (hl : lookupAssoc acc (aggKey p) = some e) :
    aggStep acc p = updateAssoc acc (aggKey p) (mergePlants e p) := by
  unfold aggStep
  simp only [hl]

theorem sumOut_of_empty_group (k : String) (processed : List PowerPlant)
    (h : keyGroup k processed = []) : sumOut k processed = 0 := by
  unfold sumOut
  rw [h]
  rfl

theorem cfWeightedSum_of_empty_group (k : String) (processed : List PowerPlant)
    (h : keyGroup k processed = []) : cfWeightedSum k processed = 0 := by
  unfold cfWeightedSum
  rw [h]
  rfl

theorem aggInv_step_fresh (acc : List (String × PowerPlant))
    (processed : List PowerPlant) (p : PowerPlant)
    (inv : AggInv acc processed)
    (hl : lookupAssoc acc (aggKey p) = none) :
    AggInv (acc ++ [(aggKey p, p)]) (processed ++ [p]) := by
  have haux : ∀ k, lookupAssoc (acc ++ [(aggKey p, p)]) k =
      match lookupAssoc acc k with
      | some v => some v
      | none => if aggKey p = k then some p else none := by
    intro k
    rw [lookupAssoc_append]
    cases lookupAssoc acc k <;> rfl
  refine ⟨?_, ?_, ?_, ?_, ?_, ?_, ?_, ?_, ?_⟩
  · have hmem : aggKey p ∉ acc.map Prod.fst := (lookupAssoc_eq_none _ _).mp hl
    rw [List.map_append, List.nodup_append]
    refine ⟨inv.nodup, by simp, ?_⟩
    intro a ha hb
    simp only [List.map_cons, List.map_nil, List.mem_singleton] at hb
    exact hmem (hb ▸ ha)
  · intro k h
    rw [haux] at h
    cases hlk : lookupAssoc acc k with
    | some v =>
      simp only [hlk] at h
      exact Option.noConfusion h
    | none =>
      simp only [hlk] at h
      by_cases hc : aggKey p = k
      · rw [if_pos hc] at h; exact Option.noConfusion h
      · rw [keyGroup_append_other k processed p hc]
        exact inv.lookup_none k hlk
  · intro k e h
    rw [haux] at h
    cases hlk : lookupAssoc acc k with
    | some v =>
      simp only [hlk, Option.some.injEq] at h
      subst h
      exact inv.key_eq k v hlk
    | none =>
      simp only [hlk] at h
      by_cases hc : aggKey p = k
      · rw [if_pos hc] at h
        cases h
        exact hc
      · rw [if_neg hc] at h; exact Option.noConfusion h
  · intro k e h
    rw [haux] at h
    cases hlk : lookupAssoc acc k with
    | some v =>
      simp only [hlk, Option.some.injEq] at h
      subst h
      have hne : aggKey p ≠ k := by
        intro hc; subst hc; rw [hl] at hlk; exact Option.noConfusion hlk
      rw [sumOut_append_other k processed p hne]
      exact inv.output_eq k v hlk
    | none =>
      simp only [hlk] at h
      by_cases hc : aggKey p = k
      · rw [if_pos hc] at h
        cases h
        rw [sumOut_append_same k processed p hc,
          sumOut_of_empty_group k processed (inv.lookup_none k hlk), zero_add]
      · rw [if_neg hc] at h; exact Option.noConfusion h
  · intro k e h
    rw [haux] at h
    cases hlk : lookupAssoc acc k with
    | some v =>
      simp only [hlk, Option.some.injEq] at h
      subst h
      have hne : aggKey p ≠ k := by
        intro hc; subst hc; rw [hl] at hlk; exact Option.noConfusion hlk
      rw [keyGroup_append_other k processed p hne]
      exact inv.group_ne k v hlk
    | none =>
      simp only [hlk] at h
      by_cases hc : aggKey p = k
      · rw [if_pos hc] at h
        cases h
        rw [keyGroup_append_same k processed p hc]
        simp
      · rw [if_neg hc] at h; exact Option.noConfusion h
  · intro k e q h hq
    rw [haux] at h
    cases hlk : lookupAssoc acc k with
    | some v =>
      simp only [hlk, Option.some.injEq] at h
      subst h
      have hne : aggKey p ≠ k := by
        intro hc; subst hc; rw [hl] at hlk; exact Option.noConfusion hlk
      rw [keyGroup_append_other k processed p hne] at hq
      exact inv.singleton_eq k v q hlk hq
    | none =>
      simp only [hlk] at h
      by_cases hc : aggKey p = k
      · rw [if_pos hc] at h
        cases h
        rw [keyGroup_append_same k processed p hc,
          inv.lookup_none k hlk, List.nil_append] at hq
        simpa using hq
      · rw [if_neg hc] at h; exact Option.noConfusion h
  · intro k e h h2
    rw [haux] at h
    cases hlk : lookupAssoc acc k with
    | some v =>
      simp only [hlk, Option.some.injEq] at h
      subst h
      have hne : aggKey p ≠ k := by
        intro hc; subst hc; rw [hl] at hlk; exact Option.noConfusion hlk
      rw [keyGroup_append_other k processed p hne] at h2
      exact inv.display_eq k v hlk h2
    | none =>
      simp only [hlk] at h
      by_cases hc : aggKey p = k
      · rw [if_pos hc] at h
        cases h
        rw [keyGroup_append_same k processed p hc,
          inv.lookup_none k hlk, List.nil_append] at h2
        simp at h2
      · rw [if_neg hc] at h; exact Option.noConfusion h
  · intro k e h hall
    rw [haux] at h
    cases hlk : lookupAssoc acc k with
    | some v =>
      simp only [hlk, Option.some.injEq] at h
      subst h
      have hne : aggKey p ≠ k := by
        intro hc; subst hc; rw [hl] at hlk; exact Option.noConfusion hlk
      rw [keyGroup_append_other k processed p hne] at hall
      exact inv.cf_none k v hlk hall
    | none =>
      simp only [hlk] at h
      by_cases hc : aggKey p = k
      · rw [if_pos hc] at h
        cases h
        rw [keyGroup_append_same k processed p hc,
          inv.lookup_none k hlk, List.nil_append] at hall
        exact hall p (List.mem_singleton.mpr rfl)
      · rw [if_neg hc] at h; exact Option.noConfusion h
  · intro k e h hall
    rw [haux] at h
    cases hlk : lookupAssoc acc k with
    | some v =>
      simp only [hlk, Option.some.injEq] at h
      subst h
      have hne : aggKey p ≠ k := by
        intro hc; subst hc; rw [hl] at hlk; exact Option.noConfusion hlk
      rw [keyGroup_append_other k processed p hne] at hall
      have hw : cfWeightedSum k (processed ++ [p]) = cfWeightedSum k processed := by
        unfold cfWeightedSum
        rw [keyGroup_append_other k processed p hne]
      rw [sumOut_append_other k processed p hne, hw]
      exact inv.cf_avg k v hlk hall
    | none =>
      simp only [hlk] at h
      by_cases hc : aggKey p = k
      · rw [if_pos hc] at h
        cases h
        rw [keyGroup_append_same k processed p hc,
          inv.lookup_none k hlk, List.nil_append] at hall
        obtain ⟨hpos, hsome⟩ := hall p (List.mem_singleton.mpr rfl)
        obtain ⟨c, hcf⟩ := Option.isSome_iff_exists.mp hsome
        rw [sumOut_append_same k processed p hc,
          sumOut_of_empty_group k processed (inv.lookup_none k hlk), zero_add,
          cfWeightedSum_append_same k processed p hc,
          cfWeightedSum_of_empty_group k processed (inv.lookup_none k hlk),
          zero_add, hcf]
        simp only [Option.getD_some]
        rw [mul_comm, mul_div_assoc, div_self (ne_of_gt hpos), mul_one]
      · rw [if_neg hc] at h; exact Option.noConfusion h

theorem aggInv_step_merge (acc : List (String × PowerPlant))
    (processed : List PowerPlant) (p existing : PowerPlant)
    (inv : AggInv acc processed)
    (hl : lookupAssoc acc (aggKey p) = some existing) :
    AggInv (updateAssoc acc (aggKey p) (mergePlants existing p))
      (processed ++ [p]) := by
  have hkey : aggKey existing = aggKey p := inv.key_eq _ _ hl
  have hgrp : keyGroup (aggKey p) processed ≠ [] := inv.group_ne _ _ hl
  refine ⟨?_, ?_, ?_, ?_, ?_, ?_, ?_, ?_, ?_⟩
  · rw [updateAssoc_map_fst]
    exact inv.nodup
  · intro k h
    by_cases hk : k = aggKey p
    · subst hk
      rw [lookupAssoc_update_self acc (aggKey p) existing _ hl] at h
      exact Option.noConfusion h
    · rw [lookupAssoc_update_ne acc (aggKey p) k _ hk] at h
      rw [keyGroup_append_other k processed p (fun hc => hk hc.symm)]
      exact inv.lookup_none k h
  · intro k e h
    by_cases hk : k = aggKey p
    · subst hk
      rw [lookupAssoc_update_self acc (aggKey p) existing _ hl] at h
      cases h
      rw [aggKey_mergePlants]
      exact hkey
    · rw [lookupAssoc_update_ne acc (aggKey p) k _ hk] at h
      exact inv.key_eq k e h
  · intro k e h
    by_cases hk : k = aggKey p
    · subst hk
      rw [lookupAssoc_update_self acc (aggKey p) existing _ hl] at h
      cases h
      rw [mergePlants_output, inv.output_eq (aggKey p) existing hl,
        sumOut_append_same (aggKey p) processed p rfl]
    · rw [lookupAssoc_update_ne acc (aggKey p) k _ hk] at h
      rw [sumOut_append_other k processed p (fun hc => hk hc.symm)]
      exact inv.output_eq k e h
  · intro k e h
    by_cases hk : k = aggKey p
    · subst hk
      rw [keyGroup_append_same (aggKey p) processed p rfl]
      simp
    · rw [lookupAssoc_update_ne acc (aggKey p) k _ hk] at h
      rw [keyGroup_append_other k processed p (fun hc => hk hc.symm)]
      exact inv.group_ne k e h
  · intro k e q h hq
    by_cases hk : k = aggKey p
    · subst hk
      rw [keyGroup_append_same (aggKey p) processed p rfl] at hq
      have hlen := congrArg List.length hq
      simp only [List.length_append, List.length_singleton] at hlen
      have : keyGroup (aggKey p) processed = [] := List.length_eq_zero.mp (by omega)
      exact absurd this hgrp
    · rw [lookupAssoc_update_ne acc (aggKey p) k _ hk] at h
      rw [keyGroup_append_other k processed p (fun hc => hk hc.symm)] at hq
      exact inv.singleton_eq k e q h hq
  · intro k e h _
    by_cases hk : k = aggKey p
    · subst hk
      rw [lookupAssoc_update_self acc (aggKey p) existing _ hl] at h
      cases h
      exact mergePlants_display existing p
    · rw [lookupAssoc_update_ne acc (aggKey p) k _ hk] at h
      rw [keyGroup_append_other k processed p (fun hc => hk hc.symm)] at *
      exact inv.display_eq k e h (by assumption)
  · intro k e h hall
    by_cases hk : k = aggKey p
    · subst hk
      rw [lookupAssoc_update_self acc (aggKey p) existing _ hl] at h
      cases h
      rw [keyGroup_append_same (aggKey p) processed p rfl] at hall
      have hpcf : p.capacityFactor = none :=
        hall p (List.mem_append_right _ (List.mem_singleton.mpr rfl))
      have hecf : existing.capacityFactor = none :=
        inv.cf_none (aggKey p) existing hl
          (fun x hx => hall x (List.mem_append_left _ hx))
      rw [mergePlants_cf_right_none existing p hpcf]
      exact hecf
    · rw [lookupAssoc_update_ne acc (aggKey p) k _ hk] at h
      rw [keyGroup_append_other k processed p (fun hc => hk hc.symm)] at hall
      exact inv.cf_none k e h hall
  · intro k e h hall
    by_cases hk : k = aggKey p
    · subst hk
      rw [lookupAssoc_update_self acc (aggKey p) existing _ hl] at h
      cases h
      rw [keyGroup_append_same (aggKey p) processed p rfl] at hall
      have hallg : ∀ x ∈ keyGroup (aggKey p) processed,
          0 < x.output ∧ x.capacityFactor.isSome :=
        fun x hx => hall x (List.mem_append_left _ hx)
      obtain ⟨hppos, hpsome⟩ :=
        hall p (List.mem_append_right _ (List.mem_singleton.mpr rfl))
      obtain ⟨cp, hpcf⟩ := Option.isSome_iff_exists.mp hpsome
      have hecf := inv.cf_avg (aggKey p) existing hl hallg
      have hS : 0 < sumOut (aggKey p) processed :=
        sumOut_pos (aggKey p) processed hgrp (fun x hx => (hallg x hx).1)
      have hout := inv.output_eq (aggKey p) existing hl
      rw [mergePlants_cf_both existing p _ cp hecf hpcf,
        sumOut_append_same (aggKey p) processed p rfl,
        cfWeightedSum_append_same (aggKey p) processed p rfl, hout, hpcf]
      have hcancel : sumOut (aggKey p) processed *
          (cfWeightedSum (aggKey p) processed / sumOut (aggKey p) processed) =
          cfWeightedSum (aggKey p) processed := by
        field_simp
      rw [hcancel]
      simp only [Option.getD_some]
    · rw [lookupAssoc_update_ne acc (aggKey p) k _ hk] at h
      rw [keyGroup_append_other k processed p (fun hc => hk hc.symm)] at hall
      have hw : cfWeightedSum k (processed ++ [p]) = cfWeightedSum k processed := by
        unfold cfWeightedSum
        rw [keyGroup_append_other k processed p (fun hc => hk hc.symm)]
      rw [sumOut_append_other k processed p (fun hc => hk hc.symm), hw]
      exact inv.cf_avg k e h hall

/-- Folding any plant extends the invariant. -/
theorem aggInv_step (acc : List (String × PowerPlant))
    (processed : List PowerPlant) (p : PowerPlant)
    (inv : AggInv acc processed) :
    AggInv (aggStep acc p) (processed ++ [p]) := by
  cases hl : lookupAssoc acc (aggKey p) with
  | none =>
    rw [aggStep_eq_append acc p hl]
    exact aggInv_step_fresh acc processed p inv hl
  | some existing =>
    rw [aggStep_eq_update acc p existing hl]
    exact aggInv_step_merge acc processed p existing inv hl

/-- The invariant holds of the whole fold. -/
theorem aggInv_foldl (l : List PowerPlant) :
    ∀ acc processed, AggInv acc processed →
      AggInv (l.foldl aggStep acc) (processed ++ l) := by
  induction l with
  | nil => intro acc processed inv; simpa using inv
  | cons p rest ih =>
    intro acc processed inv
    have h1 := ih (aggStep acc p) (processed ++ [p])
      (aggInv_step acc processed p inv)
    simpa using h1

/-- The invariant for `aggregatePowerPlants` itself. -/
theorem aggInv_final (l : List PowerPlant) :
    AggInv (l.foldl aggStep []) l := by
  have h := aggInv_foldl l [] [] aggInv_nil
  simpa using h

/-- With well-keyed entries and distinct keys, filtering the stored plants
by a key yields exactly the entry stored under it. -/
theorem map_snd_filter_eq (acc : List (String × PowerPlant))
    (hk : ∀ kv ∈ acc, aggKey kv.2 = kv.1)
    (hn : (acc.map Prod.fst).Nodup) (k : String) :
    (acc.map Prod.snd).filter (fun p => aggKey p = k) =
      match lookupAssoc acc k with
      | some e => [e]
      | none => [] := by
  induction acc with
  | nil => rfl
  | cons kv rest ih =>
    have hkv : aggKey kv.2 = kv.1 := hk kv (List.mem_cons_self _ _)
    have hrest : ∀ kv' ∈ rest, aggKey kv'.2 = kv'.1 :=
      fun kv' h' => hk kv' (List.mem_cons_of_mem _ h')
    have hn' : (rest.map Prod.fst).Nodup := (List.nodup_cons.mp hn).2
    by_cases h : kv.1 = k
    · have hnot : kv.1 ∉ rest.map Prod.fst := (List.nodup_cons.mp hn).1
      have hlr : lookupAssoc rest k = none :=
        (lookupAssoc_eq_none rest k).mpr (h ▸ hnot)
      have hrec := ih hrest hn'
      rw [hlr] at hrec
      simp [lookupAssoc, h, hkv, hrec]
    · have hne : ¬(aggKey kv.2 = k) := by rw [hkv]; exact h
      simp [lookupAssoc, h, hne, ih hrest hn']

/-- Filtering the aggregation output by a key yields the stored entry. -/
theorem aggregate_filter (l : List PowerPlant) (k : String) :
    (aggregatePowerPlants l).filter (fun p => aggKey p = k) =
      match lookupAssoc (l.foldl aggStep []) k with
      | some e => [e]
      | none => [] := by
  have inv := aggInv_final l
  unfold aggregatePowerPlants
  exact map_snd_filter_eq _
    (fun kv hkv => inv.key_eq kv.1 kv.2
      (lookupAssoc_of_mem_nodup _ inv.nodup kv hkv))
    inv.nodup k

/-! ## Claim C3 — one merged facility per key, with summed capacity -/

/-- C3 counterexample: the claim requires every group's output facility to
carry a display string re-derived from the summed capacity; a facility
that is alone under its Aggregation Key is returned untouched, so a stale
display string survives aggregation. -/
theorem aggregate_singleton_keeps_stale_display :
    aggregatePowerPlants [staleDisplayPlant] = [staleDisplayPlant] ∧
    staleDisplayPlant.outputDisplay ≠
      jsToFixed 1 (sumOut (aggKey staleDisplayPlant) [staleDisplayPlant]) ++
        " MW" := by
  constructor
  · with_unfolding_all rfl
  · exact of_decide_eq_true (by with_unfolding_all rfl)

/-- C3 amended: for every Facility list and every Aggregation Key with a
nonempty group, `aggregatePowerPlants` emits exactly one facility under
that key; its capacity is the exact sum of the group's capacities; its
display string is re-derived from the summed capacity whenever the group
has at least two members (an actual merge happened); and a singleton
group's facility is returned unchanged. -/
theorem aggregate_unique_sum_display (l : List PowerPlant) (k : String)
    (h : keyGroup k l ≠ []) :
    ((aggregatePowerPlants l).filter (fun p => aggKey p = k)).length = 1 ∧
    ∀ e ∈ (aggregatePowerPlants l).filter (fun p => aggKey p = k),
      e.output = sumOut k l ∧
      (2 ≤ (keyGroup k l).length →
        e.outputDisplay = jsToFixed 1 (sumOut k l) ++ " MW") ∧
      (∀ q, keyGroup k l = [q] → e = q) := by
  have inv := aggInv_final l
  have hfe := aggregate_filter l k
  cases hlk : lookupAssoc (l.foldl aggStep []) k with
  | none => exact absurd (inv.lookup_none k hlk) h
  | some e0 =>
    rw [hlk] at hfe
    constructor
    · rw [hfe]; rfl
    · intro e he
      rw [hfe] at he
      have heq : e = e0 := by simpa using he
      subst heq
      refine ⟨inv.output_eq k e hlk, ?_, ?_⟩
      · intro h2
        have hd := inv.display_eq k e hlk h2
        rw [inv.output_eq k e hlk] at hd
        exact hd
      · intro q hq
        exact inv.singleton_eq k e q hlk hq

/-- C3 amended witness: two same-key facilities of capacities 1 and 3
aggregate to exactly one facility under their key. -/
theorem aggregate_unique_sum_display_witness :
    ((aggregatePowerPlants [cfPlantOne, cfPlantTwo]).filter
      (fun p => aggKey p = aggKey cfPlantOne)).length = 1 :=
  (aggregate_unique_sum_display [cfPlantOne, cfPlantTwo] (aggKey cfPlantOne)
    (of_decide_eq_true (by with_unfolding_all rfl))).1

/-! ## Claim C5 — capacity-factor merging -/

/-- C5: in a merge the capacity factor becomes the capacity-weighted
average of the two sides — weights are the accumulated pre-merge capacity
of the stored facility and the incoming plant's capacity; a one-sided
factor is kept as-is; and over a whole group, when every constituent has
a factor and positive capacity the final facility's factor is exactly
the capacity-weighted average of the constituents (with their pre-merge
capacities as weights), while a group with no factors yields none. -/
theorem capacityFactor_weighted_average :
    (∀ e p : PowerPlant, ∀ ce cp : ℚ,
      e.capacityFactor = some ce → p.capacityFactor = some cp →
      (mergePlants e p).capacityFactor =
        some ((e.output * ce + p.output * cp) / (e.output + p.output))) ∧
    (∀ e p : PowerPlant, p.capacityFactor = none →
      (mergePlants e p).capacityFactor = e.capacityFactor) ∧
    (∀ e p : PowerPlant, ∀ cp : ℚ, e.capacityFactor = none →
      p.capacityFactor = some cp →
      (mergePlants e p).capacityFactor = some cp) ∧
    (∀ l : List PowerPlant, ∀ k : String,
      (∀ q ∈ keyGroup k l, 0 < q.output ∧ q.capacityFactor.isSome) →
      ∀ e ∈ (aggregatePowerPlants l).filter (fun p => aggKey p = k),
        e.capacityFactor = some (cfWeightedSum k l / sumOut k l)) ∧
    (∀ l : List PowerPlant, ∀ k : String,
      (∀ q ∈ keyGroup k l, q.capacityFactor = none) →
      ∀ e ∈ (aggregatePowerPlants l).filter (fun p => aggKey p = k),
        e.capacityFactor = none) := by
  refine ⟨mergePlants_cf_both, mergePlants_cf_right_none,
    mergePlants_cf_left_none, ?_, ?_⟩
  · intro l k hall e he
    have inv := aggInv_final l
    have hfe := aggregate_filter l k
    cases hlk : lookupAssoc (l.foldl aggStep []) k with
    | none =>
      rw [hlk] at hfe
      rw [hfe] at he
      exact absurd he (List.not_mem_nil e)
    | some e0 =>
      rw [hlk] at hfe
      rw [hfe] at he
      have heq : e = e0 := by simpa using he
      subst heq
      exact inv.cf_avg k e hlk hall
  · intro l k hall e he
    have inv := aggInv_final l
    have hfe := aggregate_filter l k
    cases hlk : lookupAssoc (l.foldl aggStep []) k with
    | none =>
      rw [hlk] at hfe
      rw [hfe] at he
      exact absurd he (List.not_mem_nil e)
    | some e0 =>
      rw [hlk] at hfe
      rw [hfe] at he
      have heq : e = e0 := by simpa using he
      subst heq
      exact inv.cf_none k e hlk hall

/-- C5 witness: merging factors 10 and 20 with capacities 1 and 3 gives
the weighted mix. -/
theorem capacityFactor_weighted_average_witness :
    (mergePlants cfPlantOne cfPlantTwo).capacityFactor =
      some ((cfPlantOne.output * 10 + cfPlantTwo.output * 20) /
        (cfPlantOne.output + cfPlantTwo.output)) :=
  capacityFactor_weighted_average.1 cfPlantOne cfPlantTwo 10 20 rfl rfl

/-! ## Geometry lemmas (Claims C7 and C10) -/

/-- The distance of a point to itself is zero. -/
theorem calculateDistance_self (p : ℝ × ℝ) : calculateDistance p p = 0 := by
  unfold calculateDistance toRadians atan2
  simp only [sub_self, zero_mul, zero_div, Real.sin_zero, mul_zero, zero_add,
    add_zero, Real.sqrt_zero, sub_zero, Real.sqrt_one]
  norm_num [Real.arctan_zero]

/-- The current `distanceToLineSegment` measures the Haversine distance to
the spec's clamped projection point. -/
theorem distanceToLineSegment_eq_closest (point a b : ℝ × ℝ) :
    distanceToLineSegment point a b =
      calculateDistance point (closestPointOnSegment point a b) := by
  simp only [distanceToLineSegment, closestPointOnSegment]
  by_cases hz : (b.1 - a.1) * (b.1 - a.1) + (b.2 - a.2) * (b.2 - a.2) = 0
  · rw [if_pos hz, if_neg (not_not_intro hz), if_pos (by norm_num : (-1:ℝ) < 0),
      if_pos (by norm_num : (-1:ℝ) < 0), Prod.mk.eta]
  · rw [if_neg hz, if_pos hz]
    set t := ((point.1 - a.1) * (b.1 - a.1) + (point.2 - a.2) * (b.2 - a.2)) /
      ((b.1 - a.1) * (b.1 - a.1) + (b.2 - a.2) * (b.2 - a.2)) with ht
    by_cases h1 : t < 0
    · rw [if_pos h1, if_pos h1]
      have hmin : min 1 t = t := min_eq_right (le_of_lt (h1.trans zero_lt_one))
      have hmax : max 0 (min 1 t) = 0 := by
        rw [hmin]; exact max_eq_left (le_of_lt h1)
      rw [hmax]
      congr 1
      simp
    · rw [if_neg h1, if_neg h1]
      by_cases h2 : 1 < t
      · rw [if_pos h2, if_pos h2]
        have hmin : min 1 t = 1 := min_eq_left (le_of_lt h2)
        have hmax : max 0 (min 1 t) = 1 := by
          rw [hmin]; exact max_eq_right zero_le_one
        rw [hmax]
        congr 1
        simp only [Prod.mk.injEq]
        constructor <;> ring
      · rw [if_neg h2, if_neg h2]
        have hmin : min 1 t = t := min_eq_right (not_lt.mp h2)
        have hmax : max 0 (min 1 t) = t := by
          rw [hmin]; exact max_eq_right (not_lt.mp h1)
        rw [hmax]

/-- Haversine distance on the equator line, as a function of the
longitude difference. -/
theorem calculateDistance_lat0 (x1 x2 : ℝ) :
    calculateDistance (x1, 0) (x2, 0) =
      3958.8 * (2 * atan2
        (Real.sqrt (Real.sin ((x2 - x1) * (Real.pi / 180) / 2) *
          Real.sin ((x2 - x1) * (Real.pi / 180) / 2)))
        (Real.sqrt (1 - Real.sin ((x2 - x1) * (Real.pi / 180) / 2) *
          Real.sin ((x2 - x1) * (Real.pi / 180) / 2)))) := by
  unfold calculateDistance toRadians
  simp [Real.sin_zero, Real.cos_zero]

/-- A positive haversine central term gives a positive distance factor. -/
theorem atan2_sqrt_pos (A : ℝ) (h0 : 0 < A) (h1 : A < 1) :
    0 < 2 * atan2 (Real.sqrt A) (Real.sqrt (1 - A)) := by
  have hx : 0 < Real.sqrt (1 - A) := Real.sqrt_pos.mpr (by linarith)
  have hy : 0 < Real.sqrt A := Real.sqrt_pos.mpr h0
  unfold atan2
  rw [if_pos hx]
  have harg : 0 < Real.sqrt A / Real.sqrt (1 - A) := div_pos hy hx
  have hmono := Real.arctan_strictMono harg
  rw [Real.arctan_zero] at hmono
  linarith

/-- The value `sin (π/360)` lies strictly between 0 and 1. -/
theorem sin_pi_div_360_bounds :
    0 < Real.sin (Real.pi / 360) ∧ Real.sin (Real.pi / 360) < 1 := by
  have hpi := Real.pi_pos
  have hlt : Real.pi / 360 < Real.pi := by
    apply div_lt_self hpi
    norm_num
  have hpos : 0 < Real.pi / 360 := by positivity
  constructor
  · exact Real.sin_pos_of_pos_of_lt_pi hpos hlt
  · have hsmall : Real.pi / 360 < 1 := by
      have := Real.pi_lt_d2
      linarith
    have := Real.sin_lt hpos
    linarith

/-- One degree of equatorial longitude is a strictly positive Haversine
distance. -/
theorem calculateDistance_one_degree_pos (x1 x2 : ℝ) (h : x2 - x1 = 1 ∨ x2 - x1 = -1) :
    0 < calculateDistance (x1, 0) (x2, 0) := by
  obtain ⟨hs0, hs1⟩ := sin_pi_div_360_bounds
  have hA0 : 0 < Real.sin (Real.pi / 360) * Real.sin (Real.pi / 360) :=
    mul_pos hs0 hs0
  have hA1 : Real.sin (Real.pi / 360) * Real.sin (Real.pi / 360) < 1 := by
    nlinarith
  rw [calculateDistance_lat0]
  have hsin : Real.sin ((x2 - x1) * (Real.pi / 180) / 2) *
      Real.sin ((x2 - x1) * (Real.pi / 180) / 2) =
      Real.sin (Real.pi / 360) * Real.sin (Real.pi / 360) := by
    rcases h with h | h
    · rw [h, show (1 : ℝ) * (Real.pi / 180) / 2 = Real.pi / 360 by ring]
    · rw [h, show (-1 : ℝ) * (Real.pi / 180) / 2 = -(Real.pi / 360) by ring,
        Real.sin_neg, neg_mul_neg]
  rw [hsin]
  have := atan2_sqrt_pos _ hA0 hA1
  have h3958 : (0:ℝ) < 3958.8 := by norm_num
  exact mul_pos h3958 this

/-! ## Claim C7 — exact refinement by clamped projection -/

/-- C7: the per-segment refinement test agrees with the spec's
`isNear` — `distanceToLineSegment` computes the Haversine (Earth radius
3958.8 miles) distance from the point to the clamped projection of the
point onto the segment, and compares it against the radius.  It is the
true point-to-segment minimum, not the endpoint minimum: at the midpoint
of the segment `(0,0)–(2,0)` it gives zero, while the older
endpoint-distance revision gives a strictly positive value. -/
theorem distanceToLineSegment_refines_isNear :
    (∀ point a b : ℝ × ℝ, ∀ radius : ℝ,
      (distanceToLineSegment point a b ≤ radius ↔ isNear point a b radius)) ∧
    (∀ point a b : ℝ × ℝ,
      distanceToLineSegment point a b =
        calculateDistance point (closestPointOnSegment point a b)) ∧
    distanceToLineSegment (1, 0) (0, 0) (2, 0) = 0 ∧
    0 < distanceToLineSegmentEndpoints (1, 0) (0, 0) (2, 0) := by
  refine ⟨?_, distanceToLineSegment_eq_closest, ?_, ?_⟩
  · intro point a b radius
    unfold isNear
    rw [distanceToLineSegment_eq_closest]
  · rw [distanceToLineSegment_eq_closest]
    have hcp : closestPointOnSegment (1, 0) (0, 0) (2, 0) = (1, 0) := by
      unfold closestPointOnSegment
      norm_num
    rw [hcp]
    exact calculateDistance_self (1, 0)
  · unfold distanceToLineSegmentEndpoints
    apply lt_min
    · exact calculateDistance_one_degree_pos 1 0 (Or.inr (by norm_num))
    · exact calculateDistance_one_degree_pos 1 2 (Or.inl (by norm_num))

/-! ## Claim C10 — degenerate segments are handled totally -/

/-- C10: for a zero-length segment the guarded division leaves the
parameter at `-1`, the selected closest point is the shared endpoint, the
returned distance is the Haversine distance to that endpoint, and the
`isPointNearLine` comparison for the two-point degenerate polyline is
exactly that distance against the radius. -/
theorem distanceToLineSegment_degenerate (point a : ℝ × ℝ) (radius : ℝ) :
    distanceToLineSegment point a a = calculateDistance point a ∧
    (isPointNearLine point [a, a] radius ↔
      calculateDistance point a ≤ radius) := by
  have hd : distanceToLineSegment point a a = calculateDistance point a := by
    simp only [distanceToLineSegment]
    rw [if_neg (not_not_intro (by ring :
        (a.1 - a.1) * (a.1 - a.1) + (a.2 - a.2) * (a.2 - a.2) = 0)),
      if_pos (by norm_num : (-1:ℝ) < 0), if_pos (by norm_num : (-1:ℝ) < 0),
      Prod.mk.eta]
  refine ⟨hd, ?_⟩
  unfold isPointNearLine lineSegments
  simp [hd]

end MappingInfra
